import Mathlib

/-!
Verification of the segment lifecycle coordinator (`src/indexer/segment_manager.rs`).

The manager's collaborators (`SegmentMeta`, `SegmentEntry`, `SegmentRegister`, the
`META_FILEPATH` constant and `SegmentMeta::all`) live outside the provided sources;
they are modelled from the specification (spec.md sections 3, 4.1 and 4.2), as flagged
on each such definition.  The `SegmentManager` operations themselves are translated
directly from the Rust source.  The `RwLock` around the registers only serialises the
operations; in this sequential embedding every operation is a pure function on the
`SegmentRegisters` state, so each lock-protected critical section is one function.
-/

set_option autoImplicit false

namespace SegmentManagerVerif

/-- Segment identifier.  In the source it is a UUID, used only for equality; modelled as
a natural number. -/
abbrev SegmentId := Nat

/-- Modelled from the spec: `core::SegmentMeta` is not under src/.  Spec section 3 describes it
as an immutable record of segment id, live document count, delete opstamp, and the owned
file paths. -/
structure SegmentMeta where
  segment_id : SegmentId
  num_docs : Nat
  delete_opstamp : Nat
  files : List String
deriving Repr, DecidableEq

/-- Modelled from the spec: the owned-file accessor of `core::SegmentMeta` (spec section 3). -/
def SegmentMeta.list_files (m : SegmentMeta) : List String := m.files

/-- Modelled from the spec: `indexer::SegmentEntry` is not under src/.  Spec section 3 pairs a
`SegmentMeta` with a cursor into the global delete queue; the cursor is modelled as a
natural-number position. -/
structure SegmentEntry where
  meta : SegmentMeta
  delete_cursor : Nat
deriving Repr, DecidableEq

/-- The id accessor of a segment entry (`SegmentEntry::segment_id`). -/
def SegmentEntry.segment_id (e : SegmentEntry) : SegmentId := e.meta.segment_id

/-- Modelled from the spec: `indexer::segment_register::SegmentRegister` is not under src/.
Spec section 3 describes it as a mapping from `SegmentId` to `SegmentEntry` with unique keys
and no ordering guarantee; modelled as a list of entries keyed by their segment id. -/
abbrev SegmentRegister := List SegmentEntry

namespace SegmentRegister

/-- Modelled from the spec (section 4.1): `register(entry)` inserts or overwrites the entry
for that `SegmentId`. -/
def register_segment_entry (r : SegmentRegister) (e : SegmentEntry) : SegmentRegister :=
  (r.filter (fun x => x.segment_id != e.segment_id)) ++ [e]

/-- Modelled from the spec (section 4.1): `remove(id)` deletes the entry if present, and is a
no-op otherwise. -/
def remove_segment (r : SegmentRegister) (id : SegmentId) : SegmentRegister :=
  r.filter (fun x => x.segment_id != id)

/-- Modelled from the spec (section 4.1): `get(id)` returns the (copy of the) entry for `id`
when present. -/
def get (r : SegmentRegister) (id : SegmentId) : Option SegmentEntry :=
  r.find? (fun x => x.segment_id == id)

/-- Modelled from the spec (section 4.1): `contains_all(ids)` is true iff every id is
present. -/
def contains_all (r : SegmentRegister) (ids : List SegmentId) : Bool :=
  ids.all (fun id => (r.get id).isSome)

/-- Modelled from the spec (section 4.1): `segment_entries()` lists all entries. -/
def segment_entries (r : SegmentRegister) : List SegmentEntry := r

/-- Modelled from the spec (section 4.1): `segment_metas()` is the metadata view of all
entries. -/
def segment_metas (r : SegmentRegister) : List SegmentMeta := r.map SegmentEntry.meta

/-- Modelled from the spec (section 4.1): `clear()` removes all entries. -/
def clear : SegmentRegister := []

end SegmentRegister

/-- The triple of registers guarded by the manager's lock
(`SegmentRegisters`, segment_manager.rs lines 15-27). -/
structure SegmentRegisters where
  uncommitted : SegmentRegister
  committed : SegmentRegister
  committed_in_the_future : SegmentRegister
deriving Repr, DecidableEq

/-- The error variant raised by `start_merge` (`TantivyError::InvalidArgument`). -/
inductive TantivyError where
  | InvalidArgument (msg : String)
deriving Repr, DecidableEq

namespace SegmentManager

/-- `SegmentManager::segment_entries` (lines 80-85): uncommitted entries extended with the
committed ones. -/
def segment_entries (s : SegmentRegisters) : List SegmentEntry :=
  s.uncommitted.segment_entries ++ s.committed.segment_entries

/-- Modelled from the spec: the `META_FILEPATH` constant is not under src/; it is the
well-known path of the index metadata file (spec section 6). -/
def META_FILEPATH : String := "meta.json"

/-- Modelled from the spec: `SegmentMeta::all` is not under src/.  Spec section 4.2 states that
`list_files` covers every currently known `SegmentMeta` across all live segments
(uncommitted, committed, and committed-in-the-future), so the known metas are those of the
three registers. -/
def SegmentMeta.all (s : SegmentRegisters) : List SegmentMeta :=
  s.uncommitted.segment_metas ++ s.committed.segment_metas ++
    s.committed_in_the_future.segment_metas

/-- `SegmentManager::list_files` (lines 91-98): the meta file path plus the files of every
known segment meta.  The returned `HashSet<PathBuf>` is modelled as a list considered up to
membership. -/
def list_files (s : SegmentRegisters) : List String :=
  META_FILEPATH :: (SegmentMeta.all s).foldr (fun m acc => m.list_files ++ acc) []

/-- `SegmentManager::remove_empty_segments` (lines 116-128): removes from `committed` every
entry of its snapshot whose live document count is zero. -/
def remove_empty_segments (s : SegmentRegisters) : SegmentRegisters :=
  let zero_ids :=
    (s.committed.segment_entries.filter (fun e => e.meta.num_docs == 0)).map
      SegmentEntry.segment_id
  { s with committed := zero_ids.foldl SegmentRegister.remove_segment s.committed }

/-- `SegmentManager::commit` (lines 130-138): clears all three registers, then registers every
given entry into `committed`. -/
def commit (s : SegmentRegisters) (entries : List SegmentEntry) : SegmentRegisters :=
  let _ := s
  { uncommitted := SegmentRegister.clear
    committed := entries.foldl SegmentRegister.register_segment_entry SegmentRegister.clear
    committed_in_the_future := SegmentRegister.clear }

/-- One iteration of the loop body of `SegmentManager::soft_commit` (lines 142-161). -/
def soft_commit_step (s : SegmentRegisters) (e : SegmentEntry) : SegmentRegisters :=
  match s.committed.get e.segment_id with
  | some committed_segment_entry =>
    if committed_segment_entry.meta.delete_opstamp == e.meta.delete_opstamp then
      s
    else
      { s with committed_in_the_future :=
          s.committed_in_the_future.register_segment_entry e }
  | none =>
    if (s.uncommitted.get e.segment_id).isSome then
      { s with uncommitted := s.uncommitted.register_segment_entry e }
    else
      s

/-- `SegmentManager::soft_commit` (lines 140-162): the loop over the given entries. -/
def soft_commit (s : SegmentRegisters) (entries : List SegmentEntry) : SegmentRegisters :=
  entries.foldl soft_commit_step s

/-- `SegmentManager::start_merge` (lines 169-193).  It takes only the read lock, so the
registers are unchanged by construction: the embedding is a pure function of the state
returning only the result.  The `expect` inside each branch is unreachable (guarded by
`contains_all`), rendered total with `filterMap`. -/
def start_merge (s : SegmentRegisters) (segment_ids : List SegmentId) :
    Except TantivyError (List SegmentEntry) :=
  if s.uncommitted.contains_all segment_ids then
    Except.ok (segment_ids.filterMap s.uncommitted.get)
  else if s.committed.contains_all segment_ids then
    Except.ok (segment_ids.filterMap s.committed.get)
  else
    Except.error (TantivyError.InvalidArgument
      "Merge operation sent for segments that are not all uncommited or commited.")

/-- `SegmentManager::add_segment` (lines 195-198): registers the entry into `uncommitted`. -/
def add_segment (s : SegmentRegisters) (e : SegmentEntry) : SegmentRegisters :=
  { s with uncommitted := s.uncommitted.register_segment_entry e }

/-- `SegmentManager::end_merge` (lines 200-226): picks the register containing all the
before-merge ids (uncommitted first, then committed), removes those ids from it and
registers the after-merge entry there; if neither register qualifies, the merge result is
dropped (warning only) and the state is unchanged. -/
def end_merge (s : SegmentRegisters) (before_ids : List SegmentId) (after : SegmentEntry) :
    SegmentRegisters :=
  if s.uncommitted.contains_all before_ids then
    let target := before_ids.foldl SegmentRegister.remove_segment s.uncommitted
    { s with uncommitted := target.register_segment_entry after }
  else if s.committed.contains_all before_ids then
    let target := before_ids.foldl SegmentRegister.remove_segment s.committed
    { s with committed := target.register_segment_entry after }
  else
    s

/-- `SegmentManager::committed_segment_metas` (lines 228-233): first garbage-collects the
empty committed segments, then returns the committed metadata list.  The state update is
returned alongside the result. -/
def committed_segment_metas (s : SegmentRegisters) : SegmentRegisters × List SegmentMeta :=
  let s1 := remove_empty_segments s
  (s1, s1.committed.segment_metas)

end SegmentManager

/-- The latest entry for `id` among `es` in registration order: later entries overwrite
earlier ones, so it is the first match in the reversed list. -/
def last_registered (es : List SegmentEntry) (id : SegmentId) : Option SegmentEntry :=
  es.reverse.find? (fun e => e.segment_id == id)

/-- Classifies an entry that `soft_commit` routes to `committed_in_the_future`: its id is
committed with a different delete opstamp. -/
def goes_to_future (s : SegmentRegisters) (e : SegmentEntry) : Bool :=
  match s.committed.get e.segment_id with
  | some ce => ce.meta.delete_opstamp != e.meta.delete_opstamp
  | none => false

/-- Classifies an entry that `soft_commit` routes to `uncommitted`: its id is not committed
but is present in `uncommitted`. -/
def goes_to_uncommitted (s : SegmentRegisters) (e : SegmentEntry) : Bool :=
  (s.committed.get e.segment_id).isNone && (s.uncommitted.get e.segment_id).isSome

/-- First half of the register invariant (spec section 3): no uncommitted entry's id is also
present in `committed`. -/
abbrev DisjointUC (s : SegmentRegisters) : Prop :=
  ∀ e ∈ s.uncommitted, s.committed.get e.segment_id = none

/-- Second half of the register invariant (spec section 3): an id present in
`committed_in_the_future` is also present in `committed`. -/
abbrev FutureSub (s : SegmentRegisters) : Prop :=
  ∀ e ∈ s.committed_in_the_future, (s.committed.get e.segment_id).isSome = true

/-- Builds a concrete segment entry with the given id, live-document count and delete
opstamp, used in the concrete instantiations below. -/
def mkEntry (id docs op : Nat) : SegmentEntry :=
  { meta := { segment_id := id, num_docs := docs, delete_opstamp := op, files := [] }
    delete_cursor := 0 }

/-- A concrete segment meta owning one file, used in the concrete instantiations below. -/
def mkMetaF (id : Nat) (f : String) : SegmentMeta :=
  { segment_id := id, num_docs := 1, delete_opstamp := 0, files := [f] }

namespace SegmentRegister

theorem get_register (r : SegmentRegister) (e : SegmentEntry) (id : SegmentId) :
    (r.register_segment_entry e).get id =
      if id = e.segment_id then some e else r.get id := by
  by_cases h : id = e.segment_id <;>
    simp_all [register_segment_entry, get, beq_eq_decide]
  rw [if_neg (fun hh => h hh.symm), Option.or_none]
  congr 1
  funext a
  by_cases h1 : a.segment_id = id
  · simp [h1, h]
  · simp [h1]

theorem get_remove (r : SegmentRegister) (id0 id : SegmentId) :
    (r.remove_segment id0).get id = if id = id0 then none else r.get id := by
  by_cases h : id = id0 <;>
    simp_all [remove_segment, get, beq_eq_decide]
  congr 1
  funext a
  by_cases h1 : a.segment_id = id
  · simp [h1, h]
  · simp [h1]

theorem get_foldl_remove (ids : List SegmentId) (r : SegmentRegister) (id : SegmentId) :
    (ids.foldl remove_segment r).get id = if id ∈ ids then none else r.get id := by
  induction ids generalizing r with
  | nil => simp
  | cons i ids ih =>
    by_cases h : id = i <;> by_cases hmem : id ∈ ids <;>
      simp_all [List.foldl_cons, ih, get_remove]

theorem get_eq_some (r : SegmentRegister) (id : SegmentId) (e : SegmentEntry)
    (h : r.get id = some e) : e.segment_id = id ∧ e ∈ r := by
  have hp := List.find?_some h
  have hm := List.mem_of_find?_eq_some h
  simp only [beq_iff_eq] at hp
  exact ⟨hp, hm⟩

theorem isSome_get_of_mem (r : SegmentRegister) (e : SegmentEntry) (h : e ∈ r) :
    (r.get e.segment_id).isSome = true := by
  rw [get, List.find?_isSome]
  exact ⟨e, h, by simp⟩

theorem mem_register (r : SegmentRegister) (e x : SegmentEntry)
    (h : x ∈ r.register_segment_entry e) : x ∈ r ∨ x = e := by
  rcases List.mem_append.1 h with h1 | h1
  · exact Or.inl (List.mem_of_mem_filter h1)
  · simp only [List.mem_singleton] at h1
    exact Or.inr h1

theorem mem_foldl_register (es : List SegmentEntry) (r : SegmentRegister) (x : SegmentEntry)
    (h : x ∈ es.foldl register_segment_entry r) : x ∈ r ∨ x ∈ es := by
  induction es generalizing r with
  | nil => exact Or.inl h
  | cons e es ih =>
    rcases ih (r.register_segment_entry e) h with h1 | h1
    · rcases mem_register r e x h1 with h2 | h2
      · exact Or.inl h2
      · exact Or.inr (by simp [h2])
    · exact Or.inr (List.mem_cons_of_mem e h1)

theorem contains_all_iff (r : SegmentRegister) (ids : List SegmentId) :
    r.contains_all ids = true ↔ ∀ id ∈ ids, (r.get id).isSome = true := by
  simp [contains_all, List.all_eq_true]

theorem get_foldl_register (es : List SegmentEntry) (r : SegmentRegister) (id : SegmentId) :
    (es.foldl register_segment_entry r).get id = (last_registered es id).or (r.get id) := by
  induction es generalizing r with
  | nil => simp [last_registered]
  | cons e es ih =>
    rw [List.foldl_cons, ih, get_register]
    have hrev : last_registered (e :: es) id =
        (last_registered es id).or ([e].find? (fun x => x.segment_id == id)) := by
      simp [last_registered, List.reverse_cons]
    rw [hrev]
    cases hl : last_registered es id with
    | some v => simp
    | none =>
      by_cases hid : id = e.segment_id
      · simp [hid]
      · have hb : (e.segment_id == id) = false :=
          beq_eq_false_iff_ne.mpr (fun hh => hid hh.symm)
        simp [hid, hb]

theorem foldl_register_eq (es : List SegmentEntry) (r : SegmentRegister) :
    es.foldl register_segment_entry r =
      r.filter (fun x => !((es.map SegmentEntry.segment_id).contains x.segment_id)) ++
        es.foldl register_segment_entry [] := by
  induction es generalizing r with
  | nil => simp
  | cons e es ih =>
    rw [List.foldl_cons, ih (r.register_segment_entry e), List.foldl_cons]
    have hnil : register_segment_entry [] e = [e] := rfl
    rw [hnil, ih [e]]
    rw [← List.append_assoc]
    congr 1
    rw [register_segment_entry, List.filter_append, List.filter_filter]
    congr 1
    apply List.filter_congr
    intro a _
    by_cases h1 : a.segment_id = e.segment_id <;>
      by_cases h2 : a.segment_id ∈ es.map SegmentEntry.segment_id <;> simp [h1, h2]

theorem foldl_register_subset (es : List SegmentEntry) (x : SegmentEntry)
    (h : x ∈ es.foldl register_segment_entry []) : x ∈ es := by
  rcases mem_foldl_register es [] x h with h1 | h1
  · cases h1
  · exact h1

theorem foldl_register_idem (es : List SegmentEntry) (r : SegmentRegister) :
    es.foldl register_segment_entry (es.foldl register_segment_entry r) =
      es.foldl register_segment_entry r := by
  rw [foldl_register_eq es (es.foldl register_segment_entry r), foldl_register_eq es r]
  rw [List.filter_append, List.filter_filter]
  have h2 : (es.foldl register_segment_entry []).filter
      (fun x => !((es.map SegmentEntry.segment_id).contains x.segment_id)) = [] := by
    rw [List.filter_eq_nil_iff]
    intro a ha
    have hmem : a.segment_id ∈ es.map SegmentEntry.segment_id :=
      List.mem_map_of_mem _ (foldl_register_subset es a ha)
    simp [hmem]
  rw [h2, List.append_nil]
  congr 1
  apply List.filter_congr
  intro a _
  exact Bool.and_self _

theorem foldl_register_nil_of_nodup (es : List SegmentEntry)
    (h : (es.map SegmentEntry.segment_id).Nodup) :
    es.foldl register_segment_entry [] = es := by
  induction es with
  | nil => rfl
  | cons e es ih =>
    rw [List.map_cons, List.nodup_cons] at h
    rw [List.foldl_cons]
    have hnil : register_segment_entry [] e = [e] := rfl
    rw [hnil, foldl_register_eq es [e], ih h.2]
    have hne : ¬∃ a ∈ es, a.segment_id = e.segment_id := by
      simpa [List.mem_map] using h.1
    simp [hne]

end SegmentRegister

namespace SegmentManager

theorem soft_commit_step_committed (s : SegmentRegisters) (e : SegmentEntry) :
    (soft_commit_step s e).committed = s.committed := by
  unfold soft_commit_step
  cases h : s.committed.get e.segment_id with
  | some ce =>
    by_cases hop : ce.meta.delete_opstamp = e.meta.delete_opstamp <;> simp [hop]
  | none =>
    by_cases hu : (s.uncommitted.get e.segment_id).isSome <;> simp [hu]

theorem soft_commit_step_citf (s : SegmentRegisters) (e : SegmentEntry) :
    (soft_commit_step s e).committed_in_the_future =
      if goes_to_future s e then
        s.committed_in_the_future.register_segment_entry e
      else s.committed_in_the_future := by
  unfold soft_commit_step goes_to_future
  cases h : s.committed.get e.segment_id with
  | some ce =>
    by_cases hop : ce.meta.delete_opstamp = e.meta.delete_opstamp <;> simp [hop]
  | none =>
    by_cases hu : (s.uncommitted.get e.segment_id).isSome <;> simp [hu]

theorem soft_commit_step_uncommitted (s : SegmentRegisters) (e : SegmentEntry) :
    (soft_commit_step s e).uncommitted =
      if goes_to_uncommitted s e then
        s.uncommitted.register_segment_entry e
      else s.uncommitted := by
  unfold soft_commit_step goes_to_uncommitted
  cases h : s.committed.get e.segment_id with
  | some ce =>
    by_cases hop : ce.meta.delete_opstamp = e.meta.delete_opstamp <;> simp [hop]
  | none =>
    by_cases hu : (s.uncommitted.get e.segment_id).isSome <;> simp [hu]

theorem isSome_get_step_uncommitted (s : SegmentRegisters) (e : SegmentEntry)
    (id : SegmentId) :
    ((soft_commit_step s e).uncommitted.get id).isSome = (s.uncommitted.get id).isSome := by
  rw [soft_commit_step_uncommitted]
  by_cases hg : goes_to_uncommitted s e
  · rw [if_pos hg, SegmentRegister.get_register]
    by_cases hid : id = e.segment_id
    · have hu : (s.uncommitted.get e.segment_id).isSome = true := by
        have h2 := hg
        unfold goes_to_uncommitted at h2
        simp only [Bool.and_eq_true] at h2
        exact h2.2
      rw [if_pos hid, hid, hu]
      rfl
    · rw [if_neg hid]
  · rw [if_neg hg]

theorem goes_to_future_step (s : SegmentRegisters) (e x : SegmentEntry) :
    goes_to_future (soft_commit_step s e) x = goes_to_future s x := by
  unfold goes_to_future
  rw [soft_commit_step_committed]

theorem goes_to_uncommitted_step (s : SegmentRegisters) (e x : SegmentEntry) :
    goes_to_uncommitted (soft_commit_step s e) x = goes_to_uncommitted s x := by
  unfold goes_to_uncommitted
  rw [soft_commit_step_committed, isSome_get_step_uncommitted]

theorem soft_commit_char (delta : List SegmentEntry) (s : SegmentRegisters) :
    (soft_commit s delta).committed = s.committed ∧
    (soft_commit s delta).committed_in_the_future =
      (delta.filter (goes_to_future s)).foldl SegmentRegister.register_segment_entry
        s.committed_in_the_future ∧
    (soft_commit s delta).uncommitted =
      (delta.filter (goes_to_uncommitted s)).foldl SegmentRegister.register_segment_entry
        s.uncommitted := by
  induction delta generalizing s with
  | nil => exact ⟨rfl, rfl, rfl⟩
  | cons e delta ih =>
    have h1 : soft_commit s (e :: delta) = soft_commit (soft_commit_step s e) delta := rfl
    obtain ⟨ihc, ihf, ihu⟩ := ih (soft_commit_step s e)
    have hff : delta.filter (goes_to_future (soft_commit_step s e)) =
        delta.filter (goes_to_future s) :=
      List.filter_congr (fun x _ => goes_to_future_step s e x)
    have huu : delta.filter (goes_to_uncommitted (soft_commit_step s e)) =
        delta.filter (goes_to_uncommitted s) :=
      List.filter_congr (fun x _ => goes_to_uncommitted_step s e x)
    refine ⟨?_, ?_, ?_⟩
    · rw [h1, ihc, soft_commit_step_committed]
    · rw [h1, ihf, hff, soft_commit_step_citf]
      by_cases hg : goes_to_future s e <;> simp [hg, List.filter_cons]
    · rw [h1, ihu, huu, soft_commit_step_uncommitted]
      by_cases hg : goes_to_uncommitted s e <;> simp [hg, List.filter_cons]

end SegmentManager

namespace SegmentRegister

theorem foldl_remove_eq (ids : List SegmentId) (r : SegmentRegister) :
    ids.foldl remove_segment r = r.filter (fun x => !(ids.contains x.segment_id)) := by
  induction ids generalizing r with
  | nil => simp
  | cons i ids ih =>
    rw [List.foldl_cons]
    show ids.foldl remove_segment (r.remove_segment i) = _
    rw [ih, remove_segment, List.filter_filter]
    apply List.filter_congr
    intro a _
    by_cases h1 : a.segment_id = i <;>
      by_cases h2 : a.segment_id ∈ ids <;> simp [h1, h2]

theorem mem_foldl_remove (ids : List SegmentId) (r : SegmentRegister) (x : SegmentEntry)
    (h : x ∈ ids.foldl remove_segment r) : x ∈ r := by
  rw [foldl_remove_eq] at h
  exact List.mem_of_mem_filter h

theorem map_id_filterMap_get (r : SegmentRegister) (ids : List SegmentId)
    (h : ∀ id ∈ ids, (r.get id).isSome = true) :
    (ids.filterMap r.get).map SegmentEntry.segment_id = ids := by
  induction ids with
  | nil => rfl
  | cons i ids ih =>
    have hi := h i (List.mem_cons_self i ids)
    obtain ⟨e, he⟩ := Option.isSome_iff_exists.1 hi
    rw [List.filterMap_cons, he, List.map_cons]
    rw [(get_eq_some r i e he).1, ih (fun id hid => h id (List.mem_cons_of_mem i hid))]

theorem mem_filterMap_get (r : SegmentRegister) (ids : List SegmentId) (e : SegmentEntry)
    (h : e ∈ ids.filterMap r.get) : r.get e.segment_id = some e := by
  rw [List.mem_filterMap] at h
  obtain ⟨i, _, hget⟩ := h
  rw [(get_eq_some r i e hget).1]
  exact hget

end SegmentRegister

theorem goes_to_future_isSome (s : SegmentRegisters) (x : SegmentEntry)
    (h : goes_to_future s x = true) : (s.committed.get x.segment_id).isSome = true := by
  unfold goes_to_future at h
  cases hc : s.committed.get x.segment_id with
  | none => rw [hc] at h; simp at h
  | some ce => rfl

theorem goes_to_future_isNone_committed (s : SegmentRegisters) (x : SegmentEntry)
    (h : goes_to_uncommitted s x = true) : s.committed.get x.segment_id = none := by
  unfold goes_to_uncommitted at h
  simp only [Bool.and_eq_true] at h
  exact Option.isNone_iff_eq_none.1 h.1

/-- C1: after `commit(entries)`, the uncommitted and committed-in-the-future registers are
empty and the committed register holds exactly the given entries keyed by segment id, with
later duplicates overwriting earlier ones; consequently `segment_entries()` called next
returns exactly `entries` (the list itself when the ids are distinct). -/
theorem commit_establishes_entries (s : SegmentRegisters) (entries : List SegmentEntry) :
    (SegmentManager.commit s entries).uncommitted = [] ∧
    (SegmentManager.commit s entries).committed_in_the_future = [] ∧
    (∀ id, (SegmentManager.commit s entries).committed.get id = last_registered entries id) ∧
    ((entries.map SegmentEntry.segment_id).Nodup →
      SegmentManager.segment_entries (SegmentManager.commit s entries) = entries) := by
  refine ⟨rfl, rfl, ?_, ?_⟩
  · intro id
    show (entries.foldl SegmentRegister.register_segment_entry SegmentRegister.clear).get id = _
    rw [SegmentRegister.get_foldl_register]
    show (last_registered entries id).or none = _
    rw [Option.or_none]
  · intro h
    show SegmentRegister.segment_entries [] ++
        SegmentRegister.segment_entries
          (entries.foldl SegmentRegister.register_segment_entry SegmentRegister.clear) =
      entries
    rw [SegmentRegister.segment_entries, SegmentRegister.segment_entries, List.nil_append]
    exact SegmentRegister.foldl_register_nil_of_nodup entries h

/-- Witness for C1: committing two fresh entries over a dirty prior state yields exactly
those entries. -/
theorem commit_establishes_entries_witness :
    ([mkEntry 1 2 0, mkEntry 2 3 1].map SegmentEntry.segment_id).Nodup ∧
    SegmentManager.segment_entries
        (SegmentManager.commit ⟨[mkEntry 7 1 0], [mkEntry 8 1 0], [mkEntry 8 1 5]⟩
          [mkEntry 1 2 0, mkEntry 2 3 1]) =
      [mkEntry 1 2 0, mkEntry 2 3 1] :=
  ⟨by decide, (commit_establishes_entries _ _).2.2.2 (by decide)⟩

/-- C4: when neither the uncommitted nor the committed register contains all of the
(non-empty) before-merge ids, `end_merge` leaves all three registers exactly as they
were. -/
theorem end_merge_stale_drop (s : SegmentRegisters) (before_ids : List SegmentId)
    (after : SegmentEntry) (_hne : before_ids ≠ [])
    (h1 : s.uncommitted.contains_all before_ids = false)
    (h2 : s.committed.contains_all before_ids = false) :
    SegmentManager.end_merge s before_ids after = s := by
  unfold SegmentManager.end_merge
  simp [h1, h2]

/-- Witness for C4: a merge result for an id registered nowhere is dropped without any
state change. -/
theorem end_merge_stale_drop_witness :
    [1] ≠ ([] : List SegmentId) ∧
    SegmentManager.end_merge ⟨[mkEntry 0 1 0], [], []⟩ [1] (mkEntry 2 1 0) =
      ⟨[mkEntry 0 1 0], [], []⟩ :=
  ⟨by decide, end_merge_stale_drop _ _ _ (by decide) (by decide) (by decide)⟩

/-- C10: for the empty id list both merge operations behave as if the set were wholly
contained in the uncommitted register: `start_merge([])` succeeds with the empty entry
list, and `end_merge([], after)` never takes the stale-drop branch but registers `after`
into `uncommitted`. -/
theorem empty_merge_targets_uncommitted (s : SegmentRegisters) (after : SegmentEntry) :
    SegmentManager.start_merge s [] = Except.ok [] ∧
    SegmentManager.end_merge s [] after =
      { s with uncommitted := s.uncommitted.register_segment_entry after } := by
  constructor
  · unfold SegmentManager.start_merge
    simp [SegmentRegister.contains_all]
  · unfold SegmentManager.end_merge
    simp [SegmentRegister.contains_all]

/-- C9: `list_files` returns exactly the meta file path together with the files owned by
every segment meta known to the manager across all three registers. -/
theorem list_files_retention_set (s : SegmentRegisters) (f : String) :
    f ∈ SegmentManager.list_files s ↔
      f = SegmentManager.META_FILEPATH ∨
        ∃ m ∈ SegmentManager.SegmentMeta.all s, f ∈ m.list_files := by
  have hfold : ∀ L : List SegmentMeta,
      (f ∈ L.foldr (fun m acc => m.list_files ++ acc) [] ↔ ∃ m ∈ L, f ∈ m.list_files) := by
    intro L
    induction L with
    | nil => simp
    | cons m L ih => simp [List.mem_append, ih]
  unfold SegmentManager.list_files
  rw [List.mem_cons, hfold]

/-- C2: `start_merge` fails with InvalidArgument exactly when the requested ids are neither
all present in the uncommitted register nor all present in the committed register; on
success the returned entries' ids equal the requested list and each returned entry is the
entry currently registered under its id.  The registers are unchanged by construction:
`start_merge` is a pure function of the state (it takes only the read lock). -/
theorem start_merge_validates_and_returns (s : SegmentRegisters) (ids : List SegmentId) :
    ((∃ msg, SegmentManager.start_merge s ids =
        Except.error (TantivyError.InvalidArgument msg)) ↔
      (¬s.uncommitted.contains_all ids = true ∧ ¬s.committed.contains_all ids = true)) ∧
    (∀ es, SegmentManager.start_merge s ids = Except.ok es →
      es.map SegmentEntry.segment_id = ids ∧
      ∀ e ∈ es, s.uncommitted.get e.segment_id = some e ∨
        s.committed.get e.segment_id = some e) := by
  by_cases hu : s.uncommitted.contains_all ids = true
  · constructor
    · constructor
      · intro ⟨msg, hmsg⟩
        unfold SegmentManager.start_merge at hmsg
        rw [if_pos hu] at hmsg
        cases hmsg
      · intro ⟨h1, _⟩
        exact absurd hu h1
    · intro es hes
      unfold SegmentManager.start_merge at hes
      rw [if_pos hu] at hes
      cases hes
      refine ⟨SegmentRegister.map_id_filterMap_get _ _
        ((SegmentRegister.contains_all_iff _ _).1 hu), ?_⟩
      intro e he
      exact Or.inl (SegmentRegister.mem_filterMap_get _ _ _ he)
  · by_cases hc : s.committed.contains_all ids = true
    · constructor
      · constructor
        · intro ⟨msg, hmsg⟩
          unfold SegmentManager.start_merge at hmsg
          rw [if_neg hu, if_pos hc] at hmsg
          cases hmsg
        · intro ⟨_, h2⟩
          exact absurd hc h2
      · intro es hes
        unfold SegmentManager.start_merge at hes
        rw [if_neg hu, if_pos hc] at hes
        cases hes
        refine ⟨SegmentRegister.map_id_filterMap_get _ _
          ((SegmentRegister.contains_all_iff _ _).1 hc), ?_⟩
        intro e he
        exact Or.inr (SegmentRegister.mem_filterMap_get _ _ _ he)
    · constructor
      · constructor
        · intro _
          exact ⟨hu, hc⟩
        · intro _
          refine ⟨"Merge operation sent for segments that are not all uncommited or commited.", ?_⟩
          unfold SegmentManager.start_merge
          rw [if_neg hu, if_neg hc]
      · intro es hes
        unfold SegmentManager.start_merge at hes
        rw [if_neg hu, if_neg hc] at hes
        cases hes

/-- Witness for C2: a mixed id set (one uncommitted, one committed) is rejected, and a
singleton uncommitted merge returns exactly the registered entry. -/
theorem start_merge_validates_and_returns_witness :
    (∃ msg, SegmentManager.start_merge ⟨[mkEntry 0 1 0], [mkEntry 1 1 0], []⟩ [0, 1] =
      Except.error (TantivyError.InvalidArgument msg)) ∧
    [mkEntry 0 1 0].map SegmentEntry.segment_id = [0] :=
  ⟨(start_merge_validates_and_returns ⟨[mkEntry 0 1 0], [mkEntry 1 1 0], []⟩ [0, 1]).1.mpr
      ⟨by decide, by decide⟩,
    ((start_merge_validates_and_returns ⟨[mkEntry 0 1 0], [mkEntry 1 1 0], []⟩ [0]).2
      [mkEntry 0 1 0] rfl).1⟩

/-- C3 counterexample: with uncommitted register `[entry 0]`, merging `[0]` into an
after-entry that reuses id 0 leaves id 0 retrievable from the uncommitted register,
contradicting the claim that afterwards none of the before ids is retrievable. -/
theorem end_merge_reused_id_counterexample :
    (SegmentRegisters.mk [mkEntry 0 1 0] [] []).uncommitted.contains_all [0] = true ∧
    ((SegmentManager.end_merge ⟨[mkEntry 0 1 0], [], []⟩ [0] (mkEntry 0 1 5)).uncommitted.get 0
      ).isSome = true := by
  exact ⟨by decide, by decide⟩

/-- C3 (amended): provided the after-entry's id is not among `before_ids`, `end_merge`
removes every before id from the register that contained them all (uncommitted first,
committed otherwise), registers the after-entry there so that its id is retrievable while
none of the before ids is, and leaves the other two registers untouched. -/
theorem end_merge_applies_merge (s : SegmentRegisters) (before_ids : List SegmentId)
    (after : SegmentEntry) (hfresh : after.segment_id ∉ before_ids) :
    (s.uncommitted.contains_all before_ids = true →
      (∀ id ∈ before_ids,
        (SegmentManager.end_merge s before_ids after).uncommitted.get id = none) ∧
      (SegmentManager.end_merge s before_ids after).uncommitted.get after.segment_id =
        some after ∧
      (SegmentManager.end_merge s before_ids after).committed = s.committed ∧
      (SegmentManager.end_merge s before_ids after).committed_in_the_future =
        s.committed_in_the_future) ∧
    (s.uncommitted.contains_all before_ids = false →
      s.committed.contains_all before_ids = true →
      (∀ id ∈ before_ids,
        (SegmentManager.end_merge s before_ids after).committed.get id = none) ∧
      (SegmentManager.end_merge s before_ids after).committed.get after.segment_id =
        some after ∧
      (SegmentManager.end_merge s before_ids after).uncommitted = s.uncommitted ∧
      (SegmentManager.end_merge s before_ids after).committed_in_the_future =
        s.committed_in_the_future) := by
  constructor
  · intro hu
    have hm : SegmentManager.end_merge s before_ids after =
        { s with uncommitted :=
            (before_ids.foldl SegmentRegister.remove_segment s.uncommitted
              ).register_segment_entry after } := by
      unfold SegmentManager.end_merge
      rw [if_pos hu]
    refine ⟨?_, ?_, by rw [hm], by rw [hm]⟩
    · intro id hid
      rw [hm]
      show ((before_ids.foldl SegmentRegister.remove_segment s.uncommitted
        ).register_segment_entry after).get id = none
      rw [SegmentRegister.get_register,
        if_neg (fun (hh : _ = after.segment_id) => hfresh (hh ▸ hid)),
        SegmentRegister.get_foldl_remove, if_pos hid]
    · rw [hm]
      show ((before_ids.foldl SegmentRegister.remove_segment s.uncommitted
        ).register_segment_entry after).get after.segment_id = some after
      rw [SegmentRegister.get_register, if_pos rfl]
  · intro hu hc
    have hm : SegmentManager.end_merge s before_ids after =
        { s with committed :=
            (before_ids.foldl SegmentRegister.remove_segment s.committed
              ).register_segment_entry after } := by
      unfold SegmentManager.end_merge
      rw [if_neg (by rw [hu]; exact Bool.false_ne_true), if_pos hc]
    refine ⟨?_, ?_, by rw [hm], by rw [hm]⟩
    · intro id hid
      rw [hm]
      show ((before_ids.foldl SegmentRegister.remove_segment s.committed
        ).register_segment_entry after).get id = none
      rw [SegmentRegister.get_register,
        if_neg (fun (hh : _ = after.segment_id) => hfresh (hh ▸ hid)),
        SegmentRegister.get_foldl_remove, if_pos hid]
    · rw [hm]
      show ((before_ids.foldl SegmentRegister.remove_segment s.committed
        ).register_segment_entry after).get after.segment_id = some after
      rw [SegmentRegister.get_register, if_pos rfl]

/-- Witness for C3 (amended): merging away uncommitted id 0 into fresh id 2 makes id 0
unretrievable and id 2 retrievable. -/
theorem end_merge_applies_merge_witness :
    (SegmentManager.end_merge ⟨[mkEntry 0 1 0], [], []⟩ [0] (mkEntry 2 1 0)).uncommitted.get 0 =
      none ∧
    (SegmentManager.end_merge ⟨[mkEntry 0 1 0], [], []⟩ [0] (mkEntry 2 1 0)).uncommitted.get 2 =
      some (mkEntry 2 1 0) := by
  have h := (end_merge_applies_merge ⟨[mkEntry 0 1 0], [], []⟩ [0] (mkEntry 2 1 0)
    (by decide)).1 (by decide)
  exact ⟨h.1 0 (by decide), h.2.1⟩

/-- C5: per-entry behaviour of `soft_commit`: an id committed with a different delete
opstamp is registered into committed-in-the-future (committed itself untouched); an id
committed with an equal delete opstamp changes nothing; an id absent from committed but
present in uncommitted overwrites the uncommitted entry; an id in neither register is
ignored. -/
theorem soft_commit_entry_cases (s : SegmentRegisters) (e : SegmentEntry) :
    (∀ ce, s.committed.get e.segment_id = some ce →
      ce.meta.delete_opstamp ≠ e.meta.delete_opstamp →
      SegmentManager.soft_commit s [e] =
        { s with committed_in_the_future :=
            s.committed_in_the_future.register_segment_entry e }) ∧
    (∀ ce, s.committed.get e.segment_id = some ce →
      ce.meta.delete_opstamp = e.meta.delete_opstamp →
      SegmentManager.soft_commit s [e] = s) ∧
    (s.committed.get e.segment_id = none →
      (s.uncommitted.get e.segment_id).isSome = true →
      SegmentManager.soft_commit s [e] =
        { s with uncommitted := s.uncommitted.register_segment_entry e }) ∧
    (s.committed.get e.segment_id = none →
      (s.uncommitted.get e.segment_id).isSome = false →
      SegmentManager.soft_commit s [e] = s) := by
  have hone : SegmentManager.soft_commit s [e] = SegmentManager.soft_commit_step s e := rfl
  refine ⟨?_, ?_, ?_, ?_⟩
  · intro ce hce hop
    rw [hone]
    unfold SegmentManager.soft_commit_step
    rw [hce]
    simp [beq_eq_false_iff_ne.mpr hop]
  · intro ce hce hop
    rw [hone]
    unfold SegmentManager.soft_commit_step
    rw [hce]
    simp [hop]
  · intro hce hu
    rw [hone]
    unfold SegmentManager.soft_commit_step
    rw [hce, hu]
    simp
  · intro hce hu
    rw [hone]
    unfold SegmentManager.soft_commit_step
    rw [hce, hu]
    simp

/-- Witness for C5: the four cases at concrete states — future-delete registration,
equal-opstamp no-op, uncommitted overwrite, and unknown-id ignore. -/
theorem soft_commit_entry_cases_witness :
    SegmentManager.soft_commit ⟨[], [mkEntry 0 1 3], []⟩ [mkEntry 0 1 4] =
      ⟨[], [mkEntry 0 1 3], [mkEntry 0 1 4]⟩ ∧
    SegmentManager.soft_commit ⟨[], [mkEntry 0 1 3], []⟩ [mkEntry 0 9 3] =
      ⟨[], [mkEntry 0 1 3], []⟩ ∧
    SegmentManager.soft_commit ⟨[mkEntry 1 1 0], [], []⟩ [mkEntry 1 2 0] =
      ⟨[mkEntry 1 2 0], [], []⟩ ∧
    SegmentManager.soft_commit ⟨[], [], []⟩ [mkEntry 5 1 0] = ⟨[], [], []⟩ := by
  refine ⟨?_, ?_, ?_, ?_⟩
  · rw [(soft_commit_entry_cases ⟨[], [mkEntry 0 1 3], []⟩ (mkEntry 0 1 4)).1
      (mkEntry 0 1 3) rfl (by decide)]
    rfl
  · rw [(soft_commit_entry_cases ⟨[], [mkEntry 0 1 3], []⟩ (mkEntry 0 9 3)).2.1
      (mkEntry 0 1 3) rfl (by decide)]
  · rw [(soft_commit_entry_cases ⟨[mkEntry 1 1 0], [], []⟩ (mkEntry 1 2 0)).2.2.1
      rfl (by decide)]
    rfl
  · rw [(soft_commit_entry_cases ⟨[], [], []⟩ (mkEntry 5 1 0)).2.2.2 rfl (by decide)]

/-- C6: `soft_commit` is idempotent on the observable committed and
committed-in-the-future registers: applying the same delta twice yields the same two
registers as applying it once. -/
theorem soft_commit_idempotent (s : SegmentRegisters) (delta : List SegmentEntry) :
    (SegmentManager.soft_commit (SegmentManager.soft_commit s delta) delta).committed =
      (SegmentManager.soft_commit s delta).committed ∧
    (SegmentManager.soft_commit (SegmentManager.soft_commit s delta) delta
      ).committed_in_the_future =
      (SegmentManager.soft_commit s delta).committed_in_the_future := by
  obtain ⟨h1c, h1f, _⟩ := SegmentManager.soft_commit_char delta s
  obtain ⟨h2c, h2f, _⟩ :=
    SegmentManager.soft_commit_char delta (SegmentManager.soft_commit s delta)
  constructor
  · rw [h2c]
  · rw [h2f]
    have hfilter : delta.filter (goes_to_future (SegmentManager.soft_commit s delta)) =
        delta.filter (goes_to_future s) := by
      apply List.filter_congr
      intro x _
      unfold goes_to_future
      rw [h1c]
    rw [hfilter, h1f, SegmentRegister.foldl_register_idem]

/-- C7 counterexample: a state satisfying both invariant halves in which
`committed_segment_metas` garbage-collects a zero-document committed segment whose id
still sits in committed-in-the-future, leaving that id in committed-in-the-future without
a committed counterpart. -/
theorem invariant_preservation_counterexample :
    DisjointUC ⟨[], [mkEntry 0 0 3], [mkEntry 0 0 4]⟩ ∧
    FutureSub ⟨[], [mkEntry 0 0 3], [mkEntry 0 0 4]⟩ ∧
    ¬FutureSub (SegmentManager.committed_segment_metas ⟨[], [mkEntry 0 0 3], [mkEntry 0 0 4]⟩
      ).1 := by
  refine ⟨by decide, by decide, by decide⟩

/-- C7 (amended): every operation preserves the first half of the invariant — a SegmentId
appears in at most one of uncommitted and committed (given a fresh id for `add_segment` and
for the merged entry of `end_merge`); the second half — an id appears in
committed-in-the-future only while also in committed — is preserved by `add_segment`,
`commit` and `soft_commit`, and by `end_merge` except on its committed branch;
`end_merge` of committed segments and `committed_segment_metas` can remove a committed id
that still has an entry in committed-in-the-future.  (`start_merge` takes only the read
lock and leaves the state unchanged by construction.) -/
theorem invariant_preservation (s : SegmentRegisters) :
    (∀ e : SegmentEntry, DisjointUC s → s.committed.get e.segment_id = none →
      DisjointUC (SegmentManager.add_segment s e)) ∧
    (∀ e : SegmentEntry, FutureSub s → FutureSub (SegmentManager.add_segment s e)) ∧
    (∀ entries : List SegmentEntry,
      DisjointUC (SegmentManager.commit s entries) ∧
      FutureSub (SegmentManager.commit s entries)) ∧
    (∀ delta : List SegmentEntry,
      (DisjointUC s → DisjointUC (SegmentManager.soft_commit s delta)) ∧
      (FutureSub s → FutureSub (SegmentManager.soft_commit s delta))) ∧
    (∀ (before_ids : List SegmentId) (after : SegmentEntry), DisjointUC s →
      s.committed.get after.segment_id = none →
      s.uncommitted.get after.segment_id = none →
      DisjointUC (SegmentManager.end_merge s before_ids after)) ∧
    (∀ (before_ids : List SegmentId) (after : SegmentEntry), FutureSub s →
      (s.uncommitted.contains_all before_ids = true ∨
        s.committed.contains_all before_ids = false) →
      FutureSub (SegmentManager.end_merge s before_ids after)) ∧
    (DisjointUC s → DisjointUC (SegmentManager.committed_segment_metas s).1) := by
  refine ⟨?_, ?_, ?_, ?_, ?_, ?_, ?_⟩
  · intro e h hfresh x hx
    have hx2 : x ∈ s.uncommitted.register_segment_entry e := hx
    rcases SegmentRegister.mem_register _ _ _ hx2 with h1 | h1
    · exact h x h1
    · show s.committed.get x.segment_id = none
      rw [h1]
      exact hfresh
  · intro e h x hx
    exact h x hx
  · intro entries
    constructor
    · intro x hx
      cases hx
    · intro x hx
      cases hx
  · intro delta
    obtain ⟨hc, hf, hu⟩ := SegmentManager.soft_commit_char delta s
    constructor
    · intro h x hx
      rw [hu] at hx
      show (SegmentManager.soft_commit s delta).committed.get x.segment_id = none
      rw [hc]
      rcases SegmentRegister.mem_foldl_register _ _ _ hx with h1 | h1
      · exact h x h1
      · exact goes_to_future_isNone_committed s x (List.of_mem_filter h1)
    · intro h x hx
      rw [hf] at hx
      show ((SegmentManager.soft_commit s delta).committed.get x.segment_id).isSome = true
      rw [hc]
      rcases SegmentRegister.mem_foldl_register _ _ _ hx with h1 | h1
      · exact h x h1
      · exact goes_to_future_isSome s x (List.of_mem_filter h1)
  · intro before_ids after h hfc hfu
    by_cases hbu : s.uncommitted.contains_all before_ids = true
    · have hm : SegmentManager.end_merge s before_ids after =
          { s with uncommitted :=
              (before_ids.foldl SegmentRegister.remove_segment s.uncommitted
                ).register_segment_entry after } := by
        unfold SegmentManager.end_merge
        rw [if_pos hbu]
      rw [hm]
      intro x hx
      rcases SegmentRegister.mem_register _ _ _ hx with h1 | h1
      · exact h x (SegmentRegister.mem_foldl_remove _ _ _ h1)
      · show s.committed.get x.segment_id = none
        rw [h1]
        exact hfc
    · by_cases hbc : s.committed.contains_all before_ids = true
      · have hm : SegmentManager.end_merge s before_ids after =
            { s with committed :=
                (before_ids.foldl SegmentRegister.remove_segment s.committed
                  ).register_segment_entry after } := by
          unfold SegmentManager.end_merge
          rw [if_neg hbu, if_pos hbc]
        rw [hm]
        intro x hx
        have hxu : x ∈ s.uncommitted := hx
        have hne : ¬x.segment_id = after.segment_id := by
          intro hh
          have hs := SegmentRegister.isSome_get_of_mem s.uncommitted x hxu
          rw [hh, hfu] at hs
          simp at hs
        show ((before_ids.foldl SegmentRegister.remove_segment s.committed
          ).register_segment_entry after).get x.segment_id = none
        rw [SegmentRegister.get_register, if_neg hne, SegmentRegister.get_foldl_remove]
        by_cases hb : x.segment_id ∈ before_ids
        · rw [if_pos hb]
        · rw [if_neg hb]
          exact h x hxu
      · have hm : SegmentManager.end_merge s before_ids after = s := by
          unfold SegmentManager.end_merge
          rw [if_neg hbu, if_neg hbc]
        rw [hm]
        exact h
  · intro before_ids after h hcond
    by_cases hbu : s.uncommitted.contains_all before_ids = true
    · have hm : SegmentManager.end_merge s before_ids after =
          { s with uncommitted :=
              (before_ids.foldl SegmentRegister.remove_segment s.uncommitted
                ).register_segment_entry after } := by
        unfold SegmentManager.end_merge
        rw [if_pos hbu]
      rw [hm]
      intro x hx
      exact h x hx
    · have hbc : s.committed.contains_all before_ids = false := by
        rcases hcond with h1 | h1
        · exact absurd h1 hbu
        · exact h1
      have hm : SegmentManager.end_merge s before_ids after = s := by
        unfold SegmentManager.end_merge
        rw [if_neg hbu,
          if_neg (by rw [hbc]; exact Bool.false_ne_true)]
      rw [hm]
      exact h
  · intro h x hx
    have hx2 : x ∈ s.uncommitted := hx
    show ((SegmentManager.committed_segment_metas s).1.committed.get x.segment_id) = none
    show (((s.committed.segment_entries.filter (fun e => e.meta.num_docs == 0)).map
        SegmentEntry.segment_id).foldl SegmentRegister.remove_segment s.committed
      ).get x.segment_id = none
    rw [SegmentRegister.get_foldl_remove]
    by_cases hz : x.segment_id ∈
        (s.committed.segment_entries.filter (fun e => e.meta.num_docs == 0)).map
          SegmentEntry.segment_id
    · rw [if_pos hz]
    · rw [if_neg hz]
      exact h x hx2

/-- Witness for C7 (amended): concrete preservations — `add_segment` of a fresh id,
`soft_commit` of a future delete, and an uncommitted-side `end_merge`. -/
theorem invariant_preservation_witness :
    DisjointUC (SegmentManager.add_segment ⟨[], [mkEntry 1 1 0], []⟩ (mkEntry 2 1 0)) ∧
    FutureSub (SegmentManager.soft_commit ⟨[], [mkEntry 1 1 3], []⟩ [mkEntry 1 1 4]) ∧
    DisjointUC
      (SegmentManager.end_merge ⟨[mkEntry 0 1 0], [mkEntry 1 1 0], []⟩ [0] (mkEntry 2 1 0)) := by
  refine ⟨?_, ?_, ?_⟩
  · exact (invariant_preservation ⟨[], [mkEntry 1 1 0], []⟩).1 (mkEntry 2 1 0)
      (by decide) (by decide)
  · exact ((invariant_preservation ⟨[], [mkEntry 1 1 3], []⟩).2.2.2.1 [mkEntry 1 1 4]).2
      (by decide)
  · exact (invariant_preservation ⟨[mkEntry 0 1 0], [mkEntry 1 1 0], []⟩).2.2.2.2.1 [0]
      (mkEntry 2 1 0) (by decide) (by decide) (by decide)

/-- C8: `committed_segment_metas` removes from the committed register — and only from it —
every entry with zero live documents, and the returned metadata list contains no meta with
zero live documents. -/
theorem committed_segment_metas_gc (s : SegmentRegisters)
    (hnd : (s.committed.map SegmentEntry.segment_id).Nodup) :
    (SegmentManager.committed_segment_metas s).1.uncommitted = s.uncommitted ∧
    (SegmentManager.committed_segment_metas s).1.committed_in_the_future =
      s.committed_in_the_future ∧
    (SegmentManager.committed_segment_metas s).1.committed =
      s.committed.filter (fun e => e.meta.num_docs != 0) ∧
    (SegmentManager.committed_segment_metas s).2 =
      (s.committed.filter (fun e => e.meta.num_docs != 0)).map SegmentEntry.meta ∧
    ∀ m ∈ (SegmentManager.committed_segment_metas s).2, m.num_docs ≠ 0 := by
  have hcom : (SegmentManager.committed_segment_metas s).1.committed =
      s.committed.filter (fun e => e.meta.num_docs != 0) := by
    show (((s.committed.segment_entries.filter (fun e => e.meta.num_docs == 0)).map
        SegmentEntry.segment_id).foldl SegmentRegister.remove_segment s.committed) = _
    rw [SegmentRegister.foldl_remove_eq]
    apply List.filter_congr
    intro a ha
    by_cases hz : a.meta.num_docs = 0
    · have hmem : a.segment_id ∈
          (s.committed.segment_entries.filter (fun e => e.meta.num_docs == 0)).map
            SegmentEntry.segment_id :=
        List.mem_map_of_mem _ (List.mem_filter.mpr ⟨ha, by simp [hz]⟩)
      simp [hmem, hz]
    · have hnot : a.segment_id ∉
          (s.committed.segment_entries.filter (fun e => e.meta.num_docs == 0)).map
            SegmentEntry.segment_id := by
        intro hin
        rw [List.mem_map] at hin
        obtain ⟨b, hb, hbid⟩ := hin
        rw [List.mem_filter] at hb
        have hb0 : b.meta.num_docs = 0 := by simpa using hb.2
        have hba : b = a := List.inj_on_of_nodup_map hnd hb.1 ha hbid
        exact hz (hba ▸ hb0)
      simp [hnot, hz]
  have hmetas : (SegmentManager.committed_segment_metas s).2 =
      (s.committed.filter (fun e => e.meta.num_docs != 0)).map SegmentEntry.meta := by
    show (SegmentManager.committed_segment_metas s).1.committed.map SegmentEntry.meta = _
    rw [hcom]
  refine ⟨rfl, rfl, hcom, hmetas, ?_⟩
  intro m hm
  rw [hmetas, List.mem_map] at hm
  obtain ⟨e, he, hem⟩ := hm
  rw [List.mem_filter] at he
  have : e.meta.num_docs ≠ 0 := by simpa using he.2
  rw [← hem]
  exact this

/-- Witness for C8: committing segment A with 5 live documents and segment B with 0 live
documents, `committed_segment_metas` returns only A's meta. -/
theorem committed_segment_metas_gc_witness :
    (((SegmentManager.commit ⟨[], [], []⟩ [mkEntry 1 5 0, mkEntry 2 0 0]).committed.map
        SegmentEntry.segment_id).Nodup) ∧
    (∀ m ∈ (SegmentManager.committed_segment_metas
        (SegmentManager.commit ⟨[], [], []⟩ [mkEntry 1 5 0, mkEntry 2 0 0])).2,
      m.num_docs ≠ 0) ∧
    (SegmentManager.committed_segment_metas
        (SegmentManager.commit ⟨[], [], []⟩ [mkEntry 1 5 0, mkEntry 2 0 0])).2 =
      [(mkEntry 1 5 0).meta] := by
  refine ⟨by decide, ?_, ?_⟩
  · exact (committed_segment_metas_gc _ (by decide)).2.2.2.2
  · rw [(committed_segment_metas_gc _ (by decide)).2.2.2.1]
    rfl

/-- Witness for C6: idempotence instantiated at a concrete committed state and a concrete
future-delete delta. -/
theorem soft_commit_idempotent_witness :
    (SegmentManager.soft_commit
        (SegmentManager.soft_commit ⟨[], [mkEntry 0 1 3], []⟩ [mkEntry 0 1 4])
        [mkEntry 0 1 4]).committed =
      (SegmentManager.soft_commit ⟨[], [mkEntry 0 1 3], []⟩ [mkEntry 0 1 4]).committed ∧
    (SegmentManager.soft_commit
        (SegmentManager.soft_commit ⟨[], [mkEntry 0 1 3], []⟩ [mkEntry 0 1 4])
        [mkEntry 0 1 4]).committed_in_the_future =
      (SegmentManager.soft_commit ⟨[], [mkEntry 0 1 3], []⟩ [mkEntry 0 1 4]
        ).committed_in_the_future :=
  soft_commit_idempotent ⟨[], [mkEntry 0 1 3], []⟩ [mkEntry 0 1 4]

/-- Witness for C9: the retention-set characterisation instantiated at a concrete state
holding one segment that owns one file. -/
theorem list_files_retention_set_witness :
    "f1" ∈ SegmentManager.list_files ⟨[⟨mkMetaF 0 "f1", 0⟩], [], []⟩ ↔
      "f1" = SegmentManager.META_FILEPATH ∨
        ∃ m ∈ SegmentManager.SegmentMeta.all ⟨[⟨mkMetaF 0 "f1", 0⟩], [], []⟩,
          "f1" ∈ m.list_files :=
  list_files_retention_set ⟨[⟨mkMetaF 0 "f1", 0⟩], [], []⟩ "f1"

/-- Witness for C10: the empty-id-list behaviour instantiated at a concrete state. -/
theorem empty_merge_targets_uncommitted_witness :
    SegmentManager.start_merge ⟨[mkEntry 3 1 0], [], []⟩ [] = Except.ok [] ∧
    SegmentManager.end_merge ⟨[mkEntry 3 1 0], [], []⟩ [] (mkEntry 4 1 0) =
      ⟨SegmentRegister.register_segment_entry [mkEntry 3 1 0] (mkEntry 4 1 0), [], []⟩ := by
  exact empty_merge_targets_uncommitted ⟨[mkEntry 3 1 0], [], []⟩ (mkEntry 4 1 0)

end SegmentManagerVerif
